import Mathlib

/-!
Verification of the dnsbrute scanning engine (src/dnsbrute.py).

The file embeds the engine classes of the source — `Result`, `RateLimiter`,
`LimitedSizeCache`, `BatchProcessor`, the `Bruteforcer.run` control flow and
`Bruteforcer._save_history` — as executable Lean definitions, and proves or
refutes the frozen claims about them.  Wall-clock values (`time.time()`,
`datetime.now()`) are modelled as rational numbers passed in explicitly;
fields of the source records that only hold wall-clock times or the
serialized configuration snapshot are omitted from the embedded records
because no claim mentions them.

Three methods referenced by the source are not defined anywhere in it:
`Bruteforcer._normalize_url`, `Bruteforcer._load_wordlist` and
`Bruteforcer._validate_target`.  Definitions standing in for them are
modelled from the spec and carry a doc comment saying so; everything else is
translated from the source.
-/

/-- Accepted HTTP status codes, src/dnsbrute.py line 46:
`VALID_STATUS_CODES = {200, 201, 202, 203, 204, 301, 302, 307, 308}`. -/
def VALID_STATUS_CODES : List Nat := [200, 201, 202, 203, 204, 301, 302, 307, 308]

/-- Embeds the `Result` class (src lines 381-397).  The `timestamp` field
(wall-clock `datetime.now()`) is not modelled; no claim mentions it. -/
structure Result where
  target : String
  status_code : Nat
  content_type : String
  found : Bool
deriving Repr, DecidableEq

/-- Modelled from the spec: the probe routine `Bruteforcer._validate_target`
is called by `run` (line 767) and `_validate_batch` (line 725) but is not
defined in the source.  Spec sections 4.4 and 8 state that `found` is true
iff the response status code lies in the accepted set `VALID_STATUS_CODES`
(a status of 0 denotes network failure). -/
def classifyFound (status_code : Nat) : Bool :=
  VALID_STATUS_CODES.contains status_code

/-- Embeds the `RateLimiter` class state (src lines 76-81): configured
`max_requests` and `period`, plus the list of recorded request timestamps. -/
structure RateLimiter where
  max_requests : Nat
  period : ℚ
  requests : List ℚ
deriving Repr

/-- Embeds `RateLimiter.can_proceed` (src lines 83-88): prunes timestamps
`req` with `now - req < period` false, then compares the count against
`max_requests`.  Returns the mutated limiter together with the answer. -/
def RateLimiter.can_proceed (rl : RateLimiter) (now : ℚ) : RateLimiter × Bool :=
  let pruned := rl.requests.filter (fun req => decide (now - req < rl.period))
  (⟨rl.max_requests, rl.period, pruned⟩, decide (pruned.length < rl.max_requests))

/-- Embeds `RateLimiter.add_request` (src lines 90-92): appends the current
timestamp. -/
def RateLimiter.add_request (rl : RateLimiter) (now : ℚ) : RateLimiter :=
  ⟨rl.max_requests, rl.period, rl.requests ++ [now]⟩

/-- Embeds `RateLimiter.wait_time` (src lines 94-100): returns 0 when no
timestamps are recorded, otherwise `max 0 (period - (now - min requests))`.
Note that the minimum ranges over all recorded timestamps, with no pruning
of entries older than the window. -/
def RateLimiter.wait_time (rl : RateLimiter) (now : ℚ) : ℚ :=
  match rl.requests with
  | [] => 0
  | t :: ts => max 0 (rl.period - (now - ts.foldl min t))

/-- Embeds the `LimitedSizeCache` class state (src lines 399-403): an
ordered association list standing for the `OrderedDict`, oldest entry first,
most recently used entry last, plus the configured `max_size`. -/
structure LimitedSizeCache where
  max_size : Nat
  data : List (String × Result)
deriving Repr, DecidableEq

/-- Embeds `LimitedSizeCache.__contains__` (src lines 405-406). -/
def LimitedSizeCache.containsKey (c : LimitedSizeCache) (key : String) : Bool :=
  c.data.any (fun p => p.1 == key)

/-- Embeds `LimitedSizeCache.__getitem__` (src lines 408-411): pop the key
and re-insert it at the most-recent end; `none` stands for the `KeyError`
Python raises on a missing key.  Removal of the unique key held by the
`OrderedDict` is written as a filter; admissible cache states carry
duplicate-free keys, on which the two coincide. -/
def LimitedSizeCache.getitem (c : LimitedSizeCache) (key : String) :
    Option (Result × LimitedSizeCache) :=
  match c.data.find? (fun p => p.1 == key) with
  | none => none
  | some p => some (p.2, ⟨c.max_size, c.data.filter (fun q => q.1 != key) ++ [(key, p.2)]⟩)

/-- Embeds `LimitedSizeCache.__setitem__` (src lines 413-418): an existing
key is popped and re-inserted at the most-recent end; otherwise, when the
cache is at capacity, `popitem(last=False)` evicts the oldest entry before
the insertion.  `none` stands for the `KeyError` Python raises when
`popitem` runs on an empty ordered dict (reachable only with `max_size = 0`). -/
def LimitedSizeCache.setitem (c : LimitedSizeCache) (key : String) (v : Result) :
    Option LimitedSizeCache :=
  if c.containsKey key then
    some ⟨c.max_size, c.data.filter (fun q => q.1 != key) ++ [(key, v)]⟩
  else if c.max_size ≤ c.data.length then
    match c.data with
    | [] => none
    | _ :: rest => some ⟨c.max_size, rest ++ [(key, v)]⟩
  else
    some ⟨c.max_size, c.data ++ [(key, v)]⟩

/-- Inserts a list of keys in order, all bound to the same value, threading
the `Option` of `setitem`. -/
def LimitedSizeCache.insertAll (c : LimitedSizeCache) (keys : List String) (v : Result) :
    Option LimitedSizeCache :=
  keys.foldlM (fun acc k => LimitedSizeCache.setitem acc k v) c

/-- Embeds the iteration of `BatchProcessor` (src lines 269-288): each step
yields the slice `wordlist[current_index : current_index + batch_size]` and
advances `current_index` by `batch_size`.  The fuel argument equals the
length of the remaining list; with `batch_size = 0` the Python iterator
yields empty batches forever, which the fuel cuts off — the claims only
concern `batch_size ≥ 1`, where the fuel never runs out early. -/
def BatchProcessor.chunksAux (batch_size : Nat) : Nat → List String → List (List String)
  | 0, _ => []
  | _, [] => []
  | fuel + 1, w :: ws =>
    (w :: ws).take batch_size :: BatchProcessor.chunksAux batch_size fuel ((w :: ws).drop batch_size)

/-- The full batch sequence produced by `BatchProcessor` over a wordlist. -/
def BatchProcessor.chunks (batch_size : Nat) (wordlist : List String) : List (List String) :=
  BatchProcessor.chunksAux batch_size wordlist.length wordlist

/-- State threaded through the embedded `Bruteforcer.run` loop: the
aggregated `self.results`, the `self._total_requests` counter, the session
rate limiter `self._rate_limiter`, plus an instrumentation counter of how
many probes were handed to the executor (one per `executor.submit` call). -/
structure ScanState where
  results : List Result
  total_requests : Nat
  probes_issued : Nat
  limiter : RateLimiter
deriving Repr

/-- Embeds the handling of one word inside a batch of `Bruteforcer.run`
(src lines 766-778): the word is submitted to the executor, which calls
`self._validate_target(word)` — abstracted as the `probe` argument — and the
collected result is appended to `self.results` when `result.found`.  The
run loop touches neither `self._rate_limiter` nor `self._total_requests`;
those are updated only inside `Bruteforcer._validate_batch` (src lines
712-739), a method nothing in the source calls. -/
def Bruteforcer.processWord (probe : String → Result) (st : ScanState) (word : String) :
    ScanState :=
  let r := probe word
  let st1 : ScanState := ⟨st.results, st.total_requests, st.probes_issued + 1, st.limiter⟩
  if r.found then ⟨st1.results ++ [r], st1.total_requests, st1.probes_issued, st1.limiter⟩
  else st1

/-- Embeds one batch iteration of `Bruteforcer.run` (src lines 762-778):
every word of the batch is submitted, then all futures are collected. -/
def Bruteforcer.processBatch (probe : String → Result) (st : ScanState) (batch : List String) :
    ScanState :=
  batch.foldl (Bruteforcer.processWord probe) st

/-- Embeds the body of `Bruteforcer.run` (src lines 741-784) in the absence
of cancellation: `self._total_requests` is reset to 0 (line 745), the
wordlist is cut into batches by `BatchProcessor` (line 760) and each batch
is processed in order.  The rate limiter starts from the freshly
constructed state of `Bruteforcer.__init__` (empty timestamp list).  Hooks
are modelled as the identity (a `PluginManager` with no plugins installed). -/
def Bruteforcer.run (probe : String → Result) (wordlist : List String)
    (batch_size max_requests : Nat) (period : ℚ) : ScanState :=
  (BatchProcessor.chunks batch_size wordlist).foldl (Bruteforcer.processBatch probe)
    ⟨[], 0, 0, ⟨max_requests, period, []⟩⟩

/-- Embeds the record built by `Bruteforcer._save_history` (src lines
693-710): `total_requests` is read from `self._total_requests` and
`found_count` is `len(self.results)`.  The `id`, wall-clock `start_time` and
`end_time`, and serialized `config` columns are omitted; no claim mentions
them. -/
structure ScanHistory where
  url : String
  mode : String
  wordlist : String
  total_requests : Nat
  found_count : Nat
  results : List Result
deriving Repr, DecidableEq

/-- Embeds `Bruteforcer._save_history` (src lines 693-710) applied to the
state left by a scan run. -/
def Bruteforcer.save_history (url mode wordlist_path : String) (st : ScanState) :
    ScanHistory :=
  ⟨url, mode, wordlist_path, st.total_requests, st.results.length, st.results⟩

/-- Errors that can escape the embedded `run`: a failure of the history
write performed in its `finally` block. -/
inductive RunError
  | persistError (msg : String)
deriving Repr, DecidableEq

/-- Embeds `Bruteforcer.run` together with its `finally` block (src lines
789-791): `_save_history` (src lines 693-710) contains no exception
handler, and `HistoryManager.add_scan` writes to sqlite, abstracted as the
fallible `save` argument.  Python `try/finally` semantics: when the body has
produced its return value and the `finally` block raises, the exception
from the `finally` block propagates and the return value is discarded. -/
def Bruteforcer.run_with_history (probe : String → Result) (wordlist : List String)
    (batch_size max_requests : Nat) (period : ℚ) (url mode wordlist_path : String)
    (save : ScanHistory → Except String Unit) : Except RunError (List Result) :=
  let st := Bruteforcer.run probe wordlist batch_size max_requests period
  match save (Bruteforcer.save_history url mode wordlist_path st) with
  | .error e => .error (.persistError e)
  | .ok _ => .ok st.results

/-- Outcome of one HTTP attempt against a target, as seen by the probe
routine: a response with a status code and content type, a transient
network failure (connection error or timeout), or a terminal request
error. -/
inductive AttemptOutcome
  | success (status_code : Nat) (content_type : String)
  | transient
  | terminal
deriving Repr, DecidableEq

/-- The failure `Result` produced after retry exhaustion or a terminal
request error: status code 0, found = false. -/
def failResult (target : String) : Result :=
  ⟨target, 0, "", false⟩

/-- Modelled from the spec: `Bruteforcer._validate_target` is not defined
in the source; spec sections 4.4, 7 and 8 specify its retry loop.  The
`outcomes` argument gives the network outcome of each attempt; the function
returns the number of HTTP requests issued together with the final
`Result`.  On success the status is classified through the accepted set; on
a transient failure the attempt is repeated while retries remain; on a
terminal error or after exhausting the retries a failure `Result` is
returned.  The return type is total: no exception propagates past the
probe. -/
def probeWithRetry (target : String) (outcomes : Nat → AttemptOutcome)
    (attempt retriesLeft : Nat) : Nat × Result :=
  match outcomes attempt, retriesLeft with
  | .success sc ct, _ => (1, ⟨target, sc, ct, classifyFound sc⟩)
  | .terminal, _ => (1, failResult target)
  | .transient, 0 => (1, failResult target)
  | .transient, r + 1 =>
    let rest := probeWithRetry target outcomes (attempt + 1) r
    (rest.1 + 1, rest.2)
termination_by retriesLeft

/-- Configuration failures of the engine, matching the `ConfigError`
exception class of the source (src lines 294-296). -/
inductive ConfigError
  | invalidUrl
deriving Repr, DecidableEq

/-- URLs are modelled as lists of characters. -/
def httpsPrefix : List Char := ['h', 't', 't', 'p', 's', ':', '/', '/']

/-- The accepted scheme strings of `VALID_SCHEMES` (src line 47). -/
def httpScheme : List Char := ['h', 't', 't', 'p']

/-- The second accepted scheme of `VALID_SCHEMES` (src line 47). -/
def httpsScheme : List Char := ['h', 't', 't', 'p', 's']

/-- Splits a URL at the first occurrence of the scheme separator, returning
the scheme before it and the remainder after it, or `none` when the URL has
no scheme separator. -/
def splitScheme : List Char → Option (List Char × List Char)
  | [] => none
  | c :: cs =>
    if c = ':' ∧ cs.take 2 = ['/', '/'] then
      some ([], cs.drop 2)
    else
      (splitScheme cs).map (fun p => (c :: p.1, p.2))

/-- Strips every trailing slash, as Python `str.rstrip` with the slash
argument. -/
def rstripSlashes (u : List Char) : List Char :=
  (u.reverse.dropWhile (fun c => c == '/')).reverse

/-- Modelled from the spec: `Bruteforcer._normalize_url` is invoked by
`Bruteforcer.__init__` (src line 628) but is not defined in the source.
Spec section 4.1 specifies it: the trailing slash is stripped, the scheme
defaults to https when absent, and the result must have a scheme in
`VALID_SCHEMES` and a non-empty host — mirroring `validate_url` (src lines
316-322), which checks `parsed.scheme in VALID_SCHEMES and parsed.netloc`.
The host is the segment between the scheme separator and the first slash.
Failure is the fatal `ConfigError` of the spec. -/
def normalizeCandidate (u : List Char) : List Char :=
  match splitScheme u with
  | some _ => u
  | none => httpsPrefix ++ u

/-- The validation half of the modelled `_normalize_url`: the candidate URL
must carry a scheme in `VALID_SCHEMES` and a non-empty host. -/
def normalizeUrl (url : List Char) : Except ConfigError (List Char) :=
  let cand := normalizeCandidate (rstripSlashes url)
  match splitScheme cand with
  | none => .error .invalidUrl
  | some p =>
    if (p.1 = httpScheme ∨ p.1 = httpsScheme) ∧ p.2.takeWhile (fun c => c != '/') ≠ [] then
      .ok cand
    else
      .error .invalidUrl

/-- The engine entry with URL validation in front: the URL is normalized
once, before any probing; a normalization failure is fatal and no probe
runs, otherwise the scan loop of `Bruteforcer.run` executes. -/
def Bruteforcer.engineRun (probe : String → Result) (url : List Char)
    (wordlist : List String) (batch_size max_requests : Nat) (period : ℚ) :
    Except ConfigError ScanState :=
  match normalizeUrl url with
  | .error e => .error e
  | .ok _ => .ok (Bruteforcer.run probe wordlist batch_size max_requests period)

/-- The attributes the class body of `Bruteforcer` defines (src lines
625-827): its methods, in source order.  Neither `_normalize_url` nor
`_load_wordlist` nor `_validate_target` is among them, and no code assigns
them elsewhere. -/
def bruteforcerClassAttrs : List String :=
  ["__init__", "_signal_handler", "__enter__", "__exit__", "_create_session",
   "_save_history", "_validate_batch", "run", "save_results"]

/-- The attributes a successfully constructed `Config` object carries: the
instance attributes assigned by `Config.__init__` (src lines 358-369) and
the methods of the class body (src lines 356-379).  `rate_limit` and
`batch_size` are not among them. -/
def configAttrs : List String :=
  ["threads", "timeout", "user_agent", "delay", "output_format", "auth",
   "verify_ssl", "mode", "proxy", "retries", "verbose",
   "_validate_threads", "_validate_mode"]

/-- A Python exception raised by the embedded attribute lookups: reading a
missing attribute raises `AttributeError`. -/
inductive PyException
  | attributeError (objtype attrname : String)
deriving Repr, DecidableEq

/-- Embeds a Python attribute read: succeeds exactly when the attribute
exists on the object, and raises `AttributeError` otherwise. -/
def getattrCheck (attrs : List String) (objtype attrname : String) :
    Except PyException Unit :=
  if attrs.contains attrname then .ok () else .error (.attributeError objtype attrname)

/-- Embeds the attribute reads `Bruteforcer.__init__` performs, in source
order: `self._normalize_url` (src line 628) first, then
`config.rate_limit` (src line 636).  The `url` and `wordlist_path`
arguments play no role in either lookup. -/
def Bruteforcer.initAttrLookups (url wordlist_path : String) : Except PyException Unit :=
  (getattrCheck bruteforcerClassAttrs "Bruteforcer" "_normalize_url").bind fun _ =>
  (getattrCheck configAttrs "Config" "rate_limit").bind fun _ =>
  .ok ()

/-- A probe standing for a target that responds 200, used to evaluate the
code-level theorems at concrete inputs. -/
def probeFound (word : String) : Result :=
  ⟨word, 200, "text/html", classifyFound 200⟩

set_option maxRecDepth 4000 in
/-- Claim C2: for every statusCode in [0,599], the found flag computed for a
probe result is true if and only if the statusCode is one of 200, 201, 202,
203, 204, 301, 302, 307, 308; in particular statusCode 0 (network failure)
yields found = false. -/
theorem status_classification :
    (∀ s : Nat, s ≤ 599 →
      (classifyFound s = true ↔
        (s = 200 ∨ s = 201 ∨ s = 202 ∨ s = 203 ∨ s = 204 ∨
         s = 301 ∨ s = 302 ∨ s = 307 ∨ s = 308))) ∧
    classifyFound 0 = false := by
  constructor
  · decide
  · rfl

/-- Witness for C2: the classification theorem applied at status 200. -/
theorem status_classification_witness :
    (classifyFound 200 = true ↔
      (200 = 200 ∨ 200 = 201 ∨ 200 = 202 ∨ 200 = 203 ∨ 200 = 204 ∨
       200 = 301 ∨ 200 = 302 ∨ 200 = 307 ∨ 200 = 308)) ∧
    classifyFound 0 = false :=
  ⟨status_classification.1 200 (by decide), status_classification.2⟩

/-- Claim C10: for every url string and wordlist path (and any successfully
constructed Config), the attribute reads of `Bruteforcer.__init__` fail:
the very first one, `self._normalize_url`, raises `AttributeError` because
no such method exists on the class, and the later read `config.rate_limit`
names an attribute `Config.__init__` never sets — so construction always
raises and `Bruteforcer.run` can never be reached. -/
theorem bruteforcer_init_always_raises :
    ∀ url wordlist_path : String,
      Bruteforcer.initAttrLookups url wordlist_path =
        .error (.attributeError "Bruteforcer" "_normalize_url") ∧
      configAttrs.contains "rate_limit" = false := by
  intro url wordlist_path
  exact ⟨rfl, rfl⟩

/-- Claim C1, evaluation at the failing input: a scan over the wordlist
["admin"] whose single probe returns status 200 (hence found) leaves the
history record with total_requests = 0 but found_count = 1 — the request
counter of `run` counts no probe at all, so the recorded total_requests is
strictly below the recorded found_count. -/
theorem history_counter_bug :
    (Bruteforcer.save_history "https://example.com" "directory" "wl.txt"
        (Bruteforcer.run probeFound ["admin"] 50 100 60)).total_requests = 0 ∧
    (Bruteforcer.save_history "https://example.com" "directory" "wl.txt"
        (Bruteforcer.run probeFound ["admin"] 50 100 60)).found_count = 1 ∧
    (Bruteforcer.save_history "https://example.com" "directory" "wl.txt"
        (Bruteforcer.run probeFound ["admin"] 50 100 60)).total_requests <
      (Bruteforcer.save_history "https://example.com" "directory" "wl.txt"
        (Bruteforcer.run probeFound ["admin"] 50 100 60)).found_count := by
  refine ⟨rfl, rfl, ?_⟩
  decide

/-- Claim C4, evaluation at the failing input: a scan over three words with
a limiter configured for at most 1 request per window issues 3 probes while
recording 0 requests on the session rate limiter — no probe is preceded by
an admission check-and-record, so the probes issued are not bounded by
maxRequests + (workers - 1). -/
theorem rate_limiter_bypassed_bug :
    (Bruteforcer.run probeFound ["a", "b", "c"] 50 1 60).probes_issued = 3 ∧
    (Bruteforcer.run probeFound ["a", "b", "c"] 50 1 60).limiter.requests = [] ∧
    (Bruteforcer.run probeFound ["a", "b", "c"] 50 1 60).total_requests = 0 ∧
    (Bruteforcer.run probeFound ["a", "b", "c"] 50 1 60).limiter.max_requests + (1 - 1) <
      (Bruteforcer.run probeFound ["a", "b", "c"] 50 1 60).probes_issued := by
  refine ⟨rfl, rfl, rfl, ?_⟩
  decide

/-- Claim C7, counterexample: when the history write fails, the embedded
`run` surfaces the persistence error instead of the collected results —
even though the scan itself had collected one found result. -/
theorem persist_failure_counterexample :
    Bruteforcer.run_with_history probeFound ["admin"] 50 100 60
        "https://example.com" "directory" "wl.txt" (fun _ => .error "disk full") =
      .error (.persistError "disk full") ∧
    (Bruteforcer.run probeFound ["admin"] 50 100 60).results.length = 1 := by
  exact ⟨rfl, rfl⟩

/-- Claim C7, amended: a failure of the history write performed in the
`finally` block of `run` propagates out of `run` as the error of the whole
call, discarding the collected results; nothing inside the engine catches
or logs it. -/
theorem persist_failure_propagates (probe : String → Result) (wordlist : List String)
    (batch_size max_requests : Nat) (period : ℚ) (url mode wordlist_path : String)
    (save : ScanHistory → Except String Unit) (e : String)
    (h : save (Bruteforcer.save_history url mode wordlist_path
        (Bruteforcer.run probe wordlist batch_size max_requests period)) = .error e) :
    Bruteforcer.run_with_history probe wordlist batch_size max_requests period
      url mode wordlist_path save = .error (.persistError e) := by
  simp only [Bruteforcer.run_with_history, h]

/-- Witness for the amended C7 theorem at a concrete scan and a concrete
failing save. -/
theorem persist_failure_propagates_witness :
    Bruteforcer.run_with_history probeFound ["admin"] 50 100 60
        "https://example.com" "directory" "wl.txt" (fun _ => .error "no space") =
      .error (.persistError "no space") :=
  persist_failure_propagates probeFound ["admin"] 50 100 60
    "https://example.com" "directory" "wl.txt" (fun _ => .error "no space") "no space" rfl

/-- Claim C9: a target whose probe fails with a connection error or timeout
on every attempt causes exactly retries + 1 requests and yields one failure
Result with found = false and status code 0; the model returns it as a
value, so no exception is propagated past the probe. -/
theorem retry_exhaustion (target : String) (outcomes : Nat → AttemptOutcome)
    (retries : Nat) (h : ∀ i, outcomes i = .transient) :
    ∀ attempt, probeWithRetry target outcomes attempt retries =
        (retries + 1, failResult target) ∧
      (failResult target).found = false ∧ (failResult target).status_code = 0 := by
  induction retries with
  | zero =>
    intro attempt
    refine ⟨?_, rfl, rfl⟩
    unfold probeWithRetry
    rw [h attempt]
  | succ r ih =>
    intro attempt
    refine ⟨?_, rfl, rfl⟩
    unfold probeWithRetry
    rw [h attempt]
    simp only []
    rw [(ih (attempt + 1)).1]

/-- Witness for C9, matching Scenario D of the spec: every attempt fails
transiently and retries = 2, so exactly 3 requests are issued and the
terminal result is the failure Result. -/
theorem retry_exhaustion_witness :
    probeWithRetry "https://example.com/x" (fun _ => .transient) 0 2 =
        (3, failResult "https://example.com/x") ∧
      (failResult "https://example.com/x").found = false ∧
      (failResult "https://example.com/x").status_code = 0 :=
  retry_exhaustion "https://example.com/x" (fun _ => .transient) 2 (fun _ => rfl) 0

/-- Auxiliary for C6: with enough fuel and a positive batch size, the
produced batches concatenate back to the input list and each batch holds at
most batch_size words. -/
theorem BatchProcessor.chunksAux_spec (batch_size : Nat) (hbs : 1 ≤ batch_size) :
    ∀ (fuel : Nat) (l : List String), l.length ≤ fuel →
      (BatchProcessor.chunksAux batch_size fuel l).flatten = l ∧
      ∀ b ∈ BatchProcessor.chunksAux batch_size fuel l, b.length ≤ batch_size := by
  intro fuel
  induction fuel with
  | zero =>
    intro l hl
    have : l = [] := List.length_eq_zero.mp (Nat.le_zero.mp hl)
    subst this
    exact ⟨rfl, by intro b hb; simp [BatchProcessor.chunksAux] at hb⟩
  | succ n ih =>
    intro l hl
    cases l with
    | nil => exact ⟨rfl, by intro b hb; simp [BatchProcessor.chunksAux] at hb⟩
    | cons w ws =>
      have hdrop : ((w :: ws).drop batch_size).length ≤ n := by
        rw [List.length_drop]
        have := List.length_cons w ws ▸ hl
        omega
      have hrec := ih ((w :: ws).drop batch_size) hdrop
      constructor
      · show ((w :: ws).take batch_size :: _).flatten = w :: ws
        rw [List.flatten_cons, hrec.1, List.take_append_drop]
      · intro b hb
        rw [BatchProcessor.chunksAux] at hb
        rcases List.mem_cons.mp hb with hb | hb
        · subst hb
          rw [List.length_take]
          omega
        · exact hrec.2 b hb

/-- Claim C6: for every wordlist and every batch_size ≥ 1, the batch
processor cuts the word sequence into consecutive batches of at most
batch_size words each, and the concatenation of the batches is exactly the
input wordlist — every word appears exactly once across all batches. -/
theorem batch_partition (wordlist : List String) (batch_size : Nat)
    (hbs : 1 ≤ batch_size) :
    (∀ b ∈ BatchProcessor.chunks batch_size wordlist, b.length ≤ batch_size) ∧
    (BatchProcessor.chunks batch_size wordlist).flatten = wordlist := by
  have h := BatchProcessor.chunksAux_spec batch_size hbs wordlist.length wordlist le_rfl
  exact ⟨h.2, h.1⟩

/-- Witness for C6 at batch_size 2 over a three-word list. -/
theorem batch_partition_witness :
    (BatchProcessor.chunks 2 ["a", "b", "c"]).flatten = ["a", "b", "c"] ∧ 1 ≤ 2 :=
  ⟨(batch_partition ["a", "b", "c"] 2 (by decide)).2, by decide⟩

/-- Auxiliary for C3: the left fold of `min` is below its initial value and
below every list element. -/
theorem foldl_min_le (ts : List ℚ) :
    ∀ a : ℚ, ts.foldl min a ≤ a ∧ ∀ r ∈ ts, ts.foldl min a ≤ r := by
  induction ts with
  | nil => intro a; exact ⟨le_rfl, by intro r hr; simp at hr⟩
  | cons x ts ih =>
    intro a
    have hx := ih (min a x)
    constructor
    · exact le_trans hx.1 (min_le_left a x)
    · intro r hr
      rcases List.mem_cons.mp hr with hr | hr
      · rw [hr]
        exact le_trans hx.1 (min_le_right a x)
      · exact hx.2 r hr

/-- Auxiliary for C3: the left fold of `min` is the initial value or one of
the list elements. -/
theorem foldl_min_mem (ts : List ℚ) :
    ∀ a : ℚ, ts.foldl min a = a ∨ ts.foldl min a ∈ ts := by
  induction ts with
  | nil => intro a; exact Or.inl rfl
  | cons x ts ih =>
    intro a
    rcases ih (min a x) with h | h
    · rcases min_choice a x with hm | hm
      · exact Or.inl (by rw [List.foldl_cons, h, hm])
      · exact Or.inr (by rw [List.foldl_cons, h, hm]; exact List.mem_cons_self x ts)
    · exact Or.inr (List.mem_cons_of_mem x h)

/-- Claim C3, counterexample: a limiter configured for 2 requests per 60
second window holding a single timestamp recorded at the current instant is
under capacity (can_proceed answers true), yet wait_time returns 60, not
0. -/
theorem wait_time_under_capacity_counterexample :
    (RateLimiter.can_proceed ⟨2, 60, [100]⟩ 100).2 = true ∧
    RateLimiter.wait_time ⟨2, 60, [100]⟩ 100 = 60 := by
  constructor
  · simp [RateLimiter.can_proceed]
  · show max 0 (60 - ((100 : ℚ) - 100)) = 60
    norm_num

/-- Claim C3, amended: wait_time returns 0 when no timestamps are recorded;
otherwise it returns the time until the oldest recorded timestamp — the
minimum over all timestamps, whether or not they are inside the trailing
window — leaves the window, clamped below at 0.  It does not return 0
whenever the limiter is under capacity. -/
theorem wait_time_oldest (rl : RateLimiter) (now : ℚ) :
    (rl.requests = [] → RateLimiter.wait_time rl now = 0) ∧
    (∀ t ts, rl.requests = t :: ts →
      ∃ oldest, oldest ∈ rl.requests ∧ (∀ r ∈ rl.requests, oldest ≤ r) ∧
        RateLimiter.wait_time rl now = max 0 (rl.period - (now - oldest))) := by
  constructor
  · intro h
    unfold RateLimiter.wait_time
    rw [h]
  · intro t ts h
    refine ⟨ts.foldl min t, ?_, ?_, ?_⟩
    · rw [h]
      rcases foldl_min_mem ts t with hm | hm
      · rw [hm]; exact List.mem_cons_self t ts
      · exact List.mem_cons_of_mem t hm
    · intro r hr
      rw [h] at hr
      rcases List.mem_cons.mp hr with hr | hr
      · rw [hr]
        exact (foldl_min_le ts t).1
      · exact (foldl_min_le ts t).2 r hr
    · unfold RateLimiter.wait_time
      rw [h]

/-- Witness for the amended C3 theorem: both branches evaluated at
concrete limiters. -/
theorem wait_time_oldest_witness :
    RateLimiter.wait_time ⟨2, 60, []⟩ 100 = 0 ∧
    ∃ oldest, oldest ∈ (RateLimiter.requests ⟨2, 60, [100]⟩) ∧
      (∀ r ∈ (RateLimiter.requests ⟨2, 60, [100]⟩), oldest ≤ r) ∧
      RateLimiter.wait_time ⟨2, 60, [100]⟩ 160 = max 0 (60 - (160 - oldest)) :=
  ⟨(wait_time_oldest ⟨2, 60, []⟩ 100).1 rfl,
   (wait_time_oldest ⟨2, 60, [100]⟩ 160).2 100 [] rfl⟩

/-- Auxiliary for C5: filtering out an element present in the list strictly
shrinks it. -/
theorem length_filter_lt_of_mem {α : Type} (p : α → Bool) :
    ∀ (l : List α) (x : α), x ∈ l → p x = false → (l.filter p).length < l.length := by
  intro l
  induction l with
  | nil => intro x hx; simp at hx
  | cons a l ih =>
    intro x hx hpx
    rcases List.mem_cons.mp hx with hx | hx
    · rw [hx] at hpx
      rw [List.filter_cons, hpx]
      simp only [List.length_cons]
      exact Nat.lt_succ_of_le (List.length_filter_le p l)
    · rw [List.filter_cons]
      cases hpa : p a with
      | true =>
        simp only [List.length_cons]
        exact Nat.succ_lt_succ (ih x hx hpx)
      | false =>
        simp only [List.length_cons]
        exact Nat.lt_succ_of_lt (ih x hx hpx)

/-- Auxiliary for C5: a fresh key inserted with room available is appended
at the most-recent end. -/
theorem setitem_fresh_room (c : LimitedSizeCache) (k : String) (v : Result)
    (hfresh : c.containsKey k = false) (hroom : c.data.length < c.max_size) :
    LimitedSizeCache.setitem c k v = some ⟨c.max_size, c.data ++ [(k, v)]⟩ := by
  unfold LimitedSizeCache.setitem
  rw [hfresh]
  simp only [Bool.false_eq_true, if_false]
  rw [if_neg (by omega)]

/-- Auxiliary for C5: a fresh key inserted at capacity evicts the oldest
entry, then is appended at the most-recent end. -/
theorem setitem_fresh_full (c : LimitedSizeCache) (k : String) (v : Result)
    (hd : String × Result) (tl : List (String × Result))
    (hfresh : c.containsKey k = false) (hfull : c.max_size ≤ c.data.length)
    (hdata : c.data = hd :: tl) :
    LimitedSizeCache.setitem c k v = some ⟨c.max_size, tl ++ [(k, v)]⟩ := by
  unfold LimitedSizeCache.setitem
  rw [hfresh]
  simp only [Bool.false_eq_true, if_false]
  rw [if_pos hfull, hdata]

/-- Auxiliary for C5: key membership over an appended singleton. -/
theorem containsKey_append_singleton (m : Nat) (l : List (String × Result))
    (k k' : String) (v : Result) (hne : k ≠ k')
    (h : LimitedSizeCache.containsKey ⟨m, l⟩ k' = false) :
    LimitedSizeCache.containsKey ⟨m, l ++ [(k, v)]⟩ k' = false := by
  unfold LimitedSizeCache.containsKey at *
  simp only [List.any_append, List.any_cons, List.any_nil, Bool.or_eq_false_iff] at *
  exact ⟨h, by simpa using hne, trivial⟩

/-- Auxiliary for C5: key absence is preserved when the list shrinks to its
tail. -/
theorem containsKey_tail (m : Nat) (hd : String × Result) (tl : List (String × Result))
    (k' : String) (h : LimitedSizeCache.containsKey ⟨m, hd :: tl⟩ k' = false) :
    LimitedSizeCache.containsKey ⟨m, tl⟩ k' = false := by
  unfold LimitedSizeCache.containsKey at *
  simp only [List.any_cons, Bool.or_eq_false_iff] at h
  exact h.2

/-- Auxiliary for C5: unfolding of `insertAll` over a cons cell. -/
theorem insertAll_cons (c : LimitedSizeCache) (k : String) (ks : List String) (v : Result) :
    LimitedSizeCache.insertAll c (k :: ks) v =
      (LimitedSizeCache.setitem c k v).bind
        (fun c1 => LimitedSizeCache.insertAll c1 ks v) := by
  unfold LimitedSizeCache.insertAll
  rfl

/-- Auxiliary for C5: inserting a duplicate-free list of fresh keys into a
well-formed cache succeeds and yields a cache of size
`min (starting size + number of keys) capacity`. -/
theorem insertAll_fresh_length (v : Result) :
    ∀ (keys : List String) (c : LimitedSizeCache),
      1 ≤ c.max_size → c.data.length ≤ c.max_size →
      (∀ k ∈ keys, c.containsKey k = false) → keys.Nodup →
      ∃ c', LimitedSizeCache.insertAll c keys v = some c' ∧
        c'.data.length = min (c.data.length + keys.length) c.max_size ∧
        c'.max_size = c.max_size := by
  intro keys
  induction keys with
  | nil =>
    intro c h1 h2 _ _
    refine ⟨c, rfl, ?_, rfl⟩
    simp only [List.length_nil]
    omega
  | cons k ks ih =>
    intro c h1 h2 h3 h4
    have hfresh : c.containsKey k = false := h3 k (List.mem_cons_self k ks)
    have hknotin : k ∉ ks := (List.nodup_cons.mp h4).1
    have h4ks : ks.Nodup := (List.nodup_cons.mp h4).2
    rcases Nat.lt_or_ge c.data.length c.max_size with hlt | hge
    · -- room available: plain append
      have hset := setitem_fresh_room c k v hfresh hlt
      have h3' : ∀ k' ∈ ks, LimitedSizeCache.containsKey ⟨c.max_size, c.data ++ [(k, v)]⟩ k' = false := by
        intro k' hk'
        have hne : k ≠ k' := fun he => hknotin (he ▸ hk')
        exact containsKey_append_singleton c.max_size c.data k k' v hne (h3 k' (List.mem_cons_of_mem k hk'))
      have hrec := ih ⟨c.max_size, c.data ++ [(k, v)]⟩ h1
        (by simp only [List.length_append, List.length_cons, List.length_nil]; omega) h3' h4ks
      rcases hrec with ⟨c', hc', hlen, hmax⟩
      refine ⟨c', ?_, ?_, by simpa using hmax⟩
      · rw [insertAll_cons, hset]
        exact hc'
      · simp only [List.length_append, List.length_cons, List.length_nil] at hlen
        simp only [List.length_cons]
        omega
    · -- at capacity: evict the head, then append
      have hlen_eq : c.data.length = c.max_size := Nat.le_antisymm h2 hge
      have hpos : 0 < c.data.length := by omega
      rcases hcdata : c.data with _ | ⟨hd, tl⟩
      · rw [hcdata] at hpos; simp at hpos
      · have hset := setitem_fresh_full c k v hd tl hfresh hge hcdata
        have h3' : ∀ k' ∈ ks, LimitedSizeCache.containsKey ⟨c.max_size, tl ++ [(k, v)]⟩ k' = false := by
          intro k' hk'
          have hne : k ≠ k' := fun he => hknotin (he ▸ hk')
          have htl : LimitedSizeCache.containsKey ⟨c.max_size, tl⟩ k' = false := by
            apply containsKey_tail c.max_size hd tl
            have := h3 k' (List.mem_cons_of_mem k hk')
            unfold LimitedSizeCache.containsKey at this ⊢
            rw [← hcdata]
            exact this
          exact containsKey_append_singleton c.max_size tl k k' v hne htl
        have htl_len : tl.length + 1 = c.data.length := by
          rw [hcdata]; simp
        have hrec := ih ⟨c.max_size, tl ++ [(k, v)]⟩ h1
          (by simp only [List.length_append, List.length_cons, List.length_nil]; omega) h3' h4ks
        rcases hrec with ⟨c', hc', hlen, hmax⟩
        refine ⟨c', ?_, ?_, by simpa using hmax⟩
        · rw [insertAll_cons, hset]
          exact hc'
        · simp only [List.length_append, List.length_cons, List.length_nil] at hlen
          simp only [List.length_cons]
          omega

/-- Claim C5: the result cache never exceeds its configured capacity (an
insertion from a within-capacity state stays within capacity); inserting
N > capacity distinct keys into an empty cache of positive capacity leaves
exactly capacity entries; a lookup refreshes the looked-up key to the
most-recently-used position; and inserting a new key at capacity first
evicts the least-recently-used (oldest) entry. -/
theorem cache_lru :
    (∀ (c : LimitedSizeCache) (k : String) (v : Result) (c' : LimitedSizeCache),
      c.data.length ≤ c.max_size → LimitedSizeCache.setitem c k v = some c' →
      c'.data.length ≤ c.max_size) ∧
    (∀ (m : Nat) (keys : List String) (v : Result),
      1 ≤ m → m < keys.length → keys.Nodup →
      ∃ c', LimitedSizeCache.insertAll ⟨m, []⟩ keys v = some c' ∧ c'.data.length = m) ∧
    (∀ (c : LimitedSizeCache) (k : String) (r : Result) (c' : LimitedSizeCache),
      LimitedSizeCache.getitem c k = some (r, c') → c'.data.getLast? = some (k, r)) ∧
    (∀ (c : LimitedSizeCache) (k : String) (v : Result) (hd : String × Result)
        (tl : List (String × Result)),
      c.data = hd :: tl → c.max_size ≤ c.data.length → c.containsKey k = false →
      LimitedSizeCache.setitem c k v = some ⟨c.max_size, tl ++ [(k, v)]⟩) := by
  refine ⟨?_, ?_, ?_, ?_⟩
  · intro c k v c' hle hset
    cases hmem : c.containsKey k with
    | true =>
      unfold LimitedSizeCache.setitem at hset
      rw [hmem] at hset
      simp only [if_true] at hset
      rcases Option.some.inj hset with rfl
      have hex : ∃ p ∈ c.data, (p.1 == k) = true := by
        have := hmem
        unfold LimitedSizeCache.containsKey at this
        exact List.any_eq_true.mp this
      rcases hex with ⟨p, hp, hpk⟩
      have hlt : (c.data.filter (fun q => q.1 != k)).length < c.data.length := by
        apply length_filter_lt_of_mem _ c.data p hp
        simp [bne, hpk]
      simp only [List.length_append, List.length_cons, List.length_nil]
      omega
    | false =>
      rcases Nat.lt_or_ge c.data.length c.max_size with hlt | hge
      · rw [setitem_fresh_room c k v hmem hlt] at hset
        rcases Option.some.inj hset with rfl
        simp only [List.length_append, List.length_cons, List.length_nil]
        omega
      · rcases hcdata : c.data with _ | ⟨hd, tl⟩
        · have hge' := hge
          rw [hcdata] at hge'
          unfold LimitedSizeCache.setitem at hset
          rw [hmem, hcdata] at hset
          rw [if_neg (by simp)] at hset
          rw [if_pos hge'] at hset
          exact Option.noConfusion hset
        · rw [setitem_fresh_full c k v hd tl hmem hge hcdata] at hset
          rcases Option.some.inj hset with rfl
          have : c.data.length = tl.length + 1 := by rw [hcdata]; simp
          simp only [List.length_append, List.length_cons, List.length_nil]
          omega
  · intro m keys v h1 h2 h3
    have hfresh : ∀ k ∈ keys, LimitedSizeCache.containsKey ⟨m, []⟩ k = false := by
      intro k _
      rfl
    rcases insertAll_fresh_length v keys ⟨m, []⟩ h1 (by simp) hfresh h3 with ⟨c', hc', hlen, _⟩
    refine ⟨c', hc', ?_⟩
    simp only [List.length_nil] at hlen
    omega
  · intro c k r c' hget
    unfold LimitedSizeCache.getitem at hget
    rcases hfind : c.data.find? (fun p => p.1 == k) with _ | p
    · rw [hfind] at hget
      cases hget
    · rw [hfind] at hget
      simp only [Option.some.injEq, Prod.mk.injEq] at hget
      rcases hget with ⟨hr, hc'⟩
      rw [← hc', ← hr]
      show ((c.data.filter (fun q => q.1 != k)) ++ [(k, p.2)]).getLast? = some (k, p.2)
      exact List.getLast?_concat _
  · intro c k v hd tl hdata hfull hfresh
    exact setitem_fresh_full c k v hd tl hfresh hfull hdata

/-- Witness for C5: all four conjuncts of the cache theorem evaluated at
concrete caches over a concrete cached result. -/
theorem cache_lru_witness :
    (LimitedSizeCache.data ⟨1, [("a", probeFound "x")]⟩).length ≤ 1 ∧
    (∃ c', LimitedSizeCache.insertAll ⟨1, []⟩ ["a", "b"] (probeFound "x") = some c' ∧
      c'.data.length = 1) ∧
    (LimitedSizeCache.data ⟨2, [("a", probeFound "x")]⟩).getLast? =
      some ("a", probeFound "x") ∧
    LimitedSizeCache.setitem ⟨1, [("a", probeFound "x")]⟩ "b" (probeFound "x") =
      some ⟨1, [] ++ [("b", probeFound "x")]⟩ :=
  ⟨cache_lru.1 ⟨1, []⟩ "a" (probeFound "x") ⟨1, [("a", probeFound "x")]⟩
      (by decide) rfl,
   cache_lru.2.1 1 ["a", "b"] (probeFound "x") (by decide) (by decide) (by decide),
   cache_lru.2.2.1 ⟨2, [("a", probeFound "x")]⟩ "a" (probeFound "x")
      ⟨2, [("a", probeFound "x")]⟩ rfl,
   cache_lru.2.2.2 ⟨1, [("a", probeFound "x")]⟩ "b" (probeFound "x")
      ("a", probeFound "x") [] rfl (by decide) rfl⟩

/-- Auxiliary for C8: stripping trailing slashes absorbs an extra trailing
slash. -/
theorem rstripSlashes_append_slash (u : List Char) :
    rstripSlashes (u ++ ['/']) = rstripSlashes u := by
  unfold rstripSlashes
  rw [List.reverse_append]
  simp [List.dropWhile_cons]

/-- Auxiliary for C8: `splitScheme` on a cons cell that is not the scheme
separator start. -/
theorem splitScheme_cons_neg (c : Char) (cs : List Char)
    (h : ¬(c = ':' ∧ cs.take 2 = ['/', '/'])) :
    splitScheme (c :: cs) = (splitScheme cs).map (fun p => (c :: p.1, p.2)) := by
  rw [splitScheme, if_neg h]

/-- Auxiliary for C8: `splitScheme` on the scheme separator itself. -/
theorem splitScheme_cons_pos (c : Char) (cs : List Char)
    (h : c = ':' ∧ cs.take 2 = ['/', '/']) :
    splitScheme (c :: cs) = some ([], cs.drop 2) := by
  rw [splitScheme, if_pos h]

/-- Auxiliary for C8: prepending the https prefix yields the https scheme
and leaves the remainder intact, whatever it is. -/
theorem splitScheme_httpsPrefix (v : List Char) :
    splitScheme (httpsPrefix ++ v) = some (httpsScheme, v) := by
  have h6 : splitScheme (':' :: '/' :: '/' :: v) = some ([], v) :=
    splitScheme_cons_pos ':' ('/' :: '/' :: v) ⟨rfl, rfl⟩
  have h5 : splitScheme ('s' :: ':' :: '/' :: '/' :: v) = some (['s'], v) := by
    rw [splitScheme_cons_neg 's' _ (fun hc => absurd hc.1 (by decide)), h6]
    rfl
  have h4 : splitScheme ('p' :: 's' :: ':' :: '/' :: '/' :: v) = some (['p', 's'], v) := by
    rw [splitScheme_cons_neg 'p' _ (fun hc => absurd hc.1 (by decide)), h5]
    rfl
  have h3 : splitScheme ('t' :: 'p' :: 's' :: ':' :: '/' :: '/' :: v) =
      some (['t', 'p', 's'], v) := by
    rw [splitScheme_cons_neg 't' _ (fun hc => absurd hc.1 (by decide)), h4]
    rfl
  have h2 : splitScheme ('t' :: 't' :: 'p' :: 's' :: ':' :: '/' :: '/' :: v) =
      some (['t', 't', 'p', 's'], v) := by
    rw [splitScheme_cons_neg 't' _ (fun hc => absurd hc.1 (by decide)), h3]
    rfl
  show splitScheme ('h' :: 't' :: 't' :: 'p' :: 's' :: ':' :: '/' :: '/' :: v) =
    some (httpsScheme, v)
  rw [splitScheme_cons_neg 'h' _ (fun hc => absurd hc.1 (by decide)), h2]
  rfl

/-- Claim C8: the base URL is normalized exactly once before any probing:
trailing slashes are stripped (an extra trailing slash never changes the
outcome), a missing scheme defaults to https, every accepted URL carries a
scheme in {http, https} and a non-empty host, a URL with a different scheme
or an empty host yields the fatal configuration error, and the engine entry
propagates that error before running any probe. -/
theorem url_normalized_before_probing :
    (∀ url : List Char, normalizeUrl (url ++ ['/']) = normalizeUrl url) ∧
    (∀ (url r : List Char), splitScheme (rstripSlashes url) = none →
      normalizeUrl url = .ok r → r = httpsPrefix ++ rstripSlashes url) ∧
    (∀ (url r : List Char), normalizeUrl url = .ok r →
      ∃ s rest, splitScheme r = some (s, rest) ∧
        (s = httpScheme ∨ s = httpsScheme) ∧
        rest.takeWhile (fun c => c != '/') ≠ []) ∧
    (∀ (url s rest : List Char), splitScheme (rstripSlashes url) = some (s, rest) →
      (s ≠ httpScheme ∧ s ≠ httpsScheme) ∨ rest.takeWhile (fun c => c != '/') = [] →
      normalizeUrl url = .error .invalidUrl) ∧
    (∀ (probe : String → Result) (url : List Char) (wordlist : List String)
        (batch_size max_requests : Nat) (period : ℚ) (e : ConfigError),
      normalizeUrl url = .error e →
      Bruteforcer.engineRun probe url wordlist batch_size max_requests period = .error e) := by
  refine ⟨?_, ?_, ?_, ?_, ?_⟩
  · intro url
    simp only [normalizeUrl, rstripSlashes_append_slash]
  · intro url r hnone hok
    have hcand : normalizeCandidate (rstripSlashes url) = httpsPrefix ++ rstripSlashes url := by
      unfold normalizeCandidate
      rw [hnone]
    simp only [normalizeUrl, hcand, splitScheme_httpsPrefix] at hok
    split at hok
    · exact (Except.ok.inj hok).symm
    · exact Except.noConfusion hok
  · intro url r hok
    simp only [normalizeUrl] at hok
    rcases hsp : splitScheme (normalizeCandidate (rstripSlashes url)) with _ | p
    · simp only [hsp] at hok
      exact Except.noConfusion hok
    · simp only [hsp] at hok
      split at hok
      next hcond =>
        refine ⟨p.1, p.2, ?_, hcond.1, hcond.2⟩
        rw [← Except.ok.inj hok]
        exact hsp
      next => exact Except.noConfusion hok
  · intro url s rest hsp hbad
    have hcand : normalizeCandidate (rstripSlashes url) = rstripSlashes url := by
      unfold normalizeCandidate
      rw [hsp]
    simp only [normalizeUrl, hcand, hsp]
    rw [if_neg ?_]
    rintro ⟨hscheme, hhost⟩
    rcases hbad with ⟨hs1, hs2⟩ | hempty
    · rcases hscheme with h | h
      · exact hs1 h
      · exact hs2 h
    · exact hhost hempty
  · intro probe url wordlist batch_size max_requests period e herr
    simp only [Bruteforcer.engineRun, herr]

/-- Witness for C8: the five conjuncts evaluated at concrete URLs — an
extra trailing slash is harmless, a scheme-less URL receives the https
prefix, an accepted URL decomposes into a valid scheme and non-empty host,
an ftp URL is rejected, and the rejected URL makes the engine entry fail
before probing. -/
theorem url_normalized_before_probing_witness :
    normalizeUrl ("http://e.com".toList ++ ['/']) = normalizeUrl "http://e.com".toList ∧
    "https://e.com".toList = httpsPrefix ++ rstripSlashes "e.com".toList ∧
    (∃ s rest, splitScheme "http://e.com".toList = some (s, rest) ∧
      (s = httpScheme ∨ s = httpsScheme) ∧
      rest.takeWhile (fun c => c != '/') ≠ []) ∧
    normalizeUrl "ftp://e.com".toList = .error .invalidUrl ∧
    Bruteforcer.engineRun probeFound "ftp://e.com".toList ["admin"] 50 100 60 =
      .error ConfigError.invalidUrl := by
  have h4 : normalizeUrl "ftp://e.com".toList = .error .invalidUrl := by
    apply url_normalized_before_probing.2.2.2.1 "ftp://e.com".toList
      "ftp".toList "e.com".toList
    · rfl
    · exact Or.inl ⟨by decide, by decide⟩
  refine ⟨url_normalized_before_probing.1 "http://e.com".toList, ?_, ?_, h4, ?_⟩
  · exact url_normalized_before_probing.2.1 "e.com".toList "https://e.com".toList rfl rfl
  · exact url_normalized_before_probing.2.2.1 "http://e.com".toList
      "http://e.com".toList rfl
  · exact url_normalized_before_probing.2.2.2.2 probeFound "ftp://e.com".toList
      ["admin"] 50 100 60 ConfigError.invalidUrl h4
